import Mathlib

/-!
# Verification of the v.info topology-inspection subsystem

The repository fragment (`src/vector/v.info/local_proto.h`) declares the
external contract of a read-only vector-map reporting tool:

* `format_double` — shared numeric formatting primitive,
* `print_region`, `print_topo`, `print_columns`, `print_info` — the report
  sections (all take `const struct Map_info *`, i.e. read-only views),
* `level_one_info` — the reduced report for a map opened without topology,
* `parse_args` — CLI flag parsing.

No function bodies are present in the repository, only these declarations,
so every operation below is modelled from the specification's description
of the topology data model (nodes / lines / areas / isles, two support
levels) and of the reporting protocol built on it.  Each definition's doc
comment records what is modelled.
-/

namespace VInfo

/-- A coordinate.  `z` is optional: the spec requires absence of a Z value
to be represented, not encoded as zero. -/
structure Coord where
  x : Rat
  y : Rat
  z : Option Rat
deriving DecidableEq

/-- Modelled from the spec: the closed tagged variant of feature types
`{point, line, boundary, centroid, face, kernel}`. -/
inductive LineType where
  | point
  | line
  | boundary
  | centroid
  | face
  | kernel
deriving DecidableEq

/-- Modelled from the spec: a generic vector feature.  `left`/`right` are
the adjacent-area references carried by boundaries; the value `0` is the
designated universal/outer sentinel. -/
structure Line where
  id : Nat
  ltype : LineType
  coords : List Coord
  left : Int
  right : Int
deriving DecidableEq

/-- Modelled from the spec: a graph vertex where vector lines meet. -/
structure Node where
  id : Nat
  coord : Coord
  incident : List Int
deriving DecidableEq

/-- Modelled from the spec: a closed region bounded by signed boundary
references (positive = forward traversal, negative = reversed). -/
structure Area where
  id : Nat
  ring : List Int
  isles : List Nat
  centroid : Option Nat
deriving DecidableEq

/-- Modelled from the spec: a hole inside an Area. -/
structure Isle where
  id : Nat
  ring : List Int
  area : Nat
deriving DecidableEq

/-- Modelled from the spec: `SupportLevel` — LEVEL_1 exposes only raw
geometric primitives, LEVEL_2 the full topological graph. -/
inductive SupportLevel where
  | LEVEL_1
  | LEVEL_2
deriving DecidableEq

/-- Modelled from the spec: a column of an attribute table. -/
structure ColumnDescriptor where
  name : String
  typeTag : String
  nullable : Bool
deriving DecidableEq

/-- Modelled from the spec: an attribute table schema; `columns` is kept in
the schema's declared order. -/
structure TableSchema where
  name : String
  columns : List ColumnDescriptor
deriving DecidableEq

/-- Modelled from the spec: a layer binding a name to an attribute table. -/
structure Layer where
  name : String
  table : TableSchema
deriving DecidableEq

/-- Modelled from the spec: the in-memory topology model behind the opened
map handle `struct Map_info` of the header.  It owns the node / line /
area / isle entities and records the support level. -/
structure Map_info where
  level : SupportLevel
  nodes : List Node
  lines : List Line
  areas : List Area
  isles : List Isle
  layers : List Layer
deriving DecidableEq

/-! ## Numeric formatting -/

/-- The character for a single decimal digit. -/
def digitChar (d : Nat) : Char := Char.ofNat (48 + d)

/-- Decimal digits of a natural number, most significant first.  The first
argument is structural fuel; any fuel above the argument is enough. -/
def natDigitsAux : Nat → Nat → List Char
  | 0, _ => []
  | fuel + 1, n =>
    if n < 10 then [digitChar n]
    else natDigitsAux fuel (n / 10) ++ [digitChar (n % 10)]

/-- Decimal digits of a natural number, most significant first. -/
def natDigits (n : Nat) : List Char := natDigitsAux (n + 1) n

/-- Render a natural number in decimal. -/
def natStr (n : Nat) : String := ⟨natDigits n⟩

/-- Modelled from the spec: `formatDouble(value) -> string`, the single
formatting primitive shared by all numeric output (`format_double` in the
header).  Fixed precision of six decimal places, sign, integer part, a
dot, and a zero-padded fractional part; no locale-dependent separators.
Numeric values are modelled as rationals; the rendered value is the
truncation of `|q|` to six decimal places. -/
def format_double (q : Rat) : String :=
  let scaled : Nat := q.num.natAbs * 1000000 / q.den
  let ip : Nat := scaled / 1000000
  let fp : Nat := scaled % 1000000
  let fracDigits : List Char :=
    List.replicate (6 - (natDigits fp).length) '0' ++ natDigits fp
  ⟨(if q.num < 0 then ['-'] else []) ++ natDigits ip ++ '.' :: fracDigits⟩

/-- Number of characters strictly after the last dot of a rendered number:
the realised decimal precision. -/
def fracPartLen (s : String) : Nat :=
  (s.data.reverse.takeWhile (fun c => c ≠ '.')).length

/-! ## TopologyModel read access -/

/-- All coordinates of all lines of the model, in storage order. -/
def allCoords (m : Map_info) : List Coord :=
  m.lines.foldr (fun l acc => l.coords ++ acc) []

/-- Look a line up by identifier. -/
def findLine (m : Map_info) (i : Nat) : Option Line :=
  m.lines.find? (fun l => l.id = i)

/-- Modelled from the spec: `forEachLine` — a finite, restartable traversal
of the model's lines in ascending identifier order (the stable internal
ordering that makes downstream reports reproducible). -/
def forEachLine (m : Map_info) : List Line :=
  m.lines.insertionSort (fun a b => a.id ≤ b.id)

/-- Modelled from the spec: `lineEndpoints(lineId)`, failing with NotFound
(`none`) when the identifier is unknown or the line has no geometry. -/
def lineEndpoints (m : Map_info) (i : Nat) : Option (Coord × Coord) :=
  match findLine m i with
  | none => none
  | some l =>
    match l.coords with
    | [] => none
    | c :: cs => some (c, (c :: cs).getLast (by simp))

/-! ## RegionCalculator -/

/-- Modelled from the spec: `Extent (Region)` — derived min/max over X, Y
and optionally Z; the Z range is `none` (absent, not zero) when no
coordinate carries a Z value, and `empty` flags the degenerate extent of
a model without geometry. -/
structure Extent where
  empty : Bool
  minX : Rat
  maxX : Rat
  minY : Rat
  maxY : Rat
  zrange : Option (Rat × Rat)
deriving DecidableEq

/-- Fold a minimum of `f` over the remaining coordinates. -/
def foldMin (f : Coord → Rat) (a : Rat) (cs : List Coord) : Rat :=
  cs.foldl (fun b p => min b (f p)) a

/-- Fold a maximum of `f` over the remaining coordinates. -/
def foldMax (f : Coord → Rat) (a : Rat) (cs : List Coord) : Rat :=
  cs.foldl (fun b p => max b (f p)) a

/-- The Z values actually present among the given coordinates. -/
def zvals (cs : List Coord) : List Rat := cs.filterMap (fun c => c.z)

/-- Minimum and maximum of a list of Z values, absent for the empty list. -/
def zfold : List Rat → Option (Rat × Rat)
  | [] => none
  | z :: zs => some (zs.foldl (fun a b => min a b) z, zs.foldl (fun a b => max a b) z)

/-- Modelled from the spec: `computeExtent(model) -> Extent`.  Iterates
every coordinate of every line once, type-agnostic; a model with no
geometry yields a degenerate extent flagged `empty`. -/
def computeExtent (m : Map_info) : Extent :=
  match allCoords m with
  | [] => ⟨true, 0, 0, 0, 0, none⟩
  | c :: cs =>
    ⟨false,
     foldMin (fun p => p.x) c.x cs, foldMax (fun p => p.x) c.x cs,
     foldMin (fun p => p.y) c.y cs, foldMax (fun p => p.y) c.y cs,
     zfold (zvals (c :: cs))⟩

/-! ## TopologyReporter -/

/-- A consistency finding: `MalformedTopology` is data, never an error. -/
inductive Finding where
  | openRing (areaId : Nat)
  | isleOutsideArea (areaId : Nat) (isleId : Nat)
  | danglingBoundary (lineId : Nat)
deriving DecidableEq

/-- The coordinate sequence contributed by one signed boundary reference:
forward for a positive reference, reversed for a negative one, empty when
the referenced line does not exist. -/
def orientedCoords (m : Map_info) (r : Int) : List Coord :=
  match findLine m r.natAbs with
  | none => []
  | some l => if 0 ≤ r then l.coords else l.coords.reverse

/-- The full coordinate walk of a ring of signed boundary references. -/
def ringCoords (m : Map_info) (ring : List Int) : List Coord :=
  ring.foldr (fun r acc => orientedCoords m r ++ acc) []

/-- Modelled from the spec: a ring closes when the first coordinate of the
first boundary segment equals the last coordinate of the last boundary
segment, directionally. -/
def ringClosed (m : Map_info) (ring : List Int) : Bool :=
  let cs := ringCoords m ring
  cs.head? = cs.getLast?

/-- `openRing` findings: one per area whose outer ring does not close. -/
def openRingFindings (m : Map_info) : List Finding :=
  (m.areas.filter (fun a => ¬ ringClosed m a.ring)).map
    (fun a => Finding.openRing a.id)

/-- Bounding interval of a list of rationals (used by the isle check). -/
def bboxOf (l : List Rat) : Option (Rat × Rat) := zfold l

/-- Modelled from the spec: the check that an isle's ring lies strictly
inside its area's outer ring.  The spec fixes no geometric predicate, so
strict containment is checked on the axis-aligned extents of the two
coordinate walks. -/
def strictlyInside (m : Map_info) (inner outer : List Int) : Bool :=
  let ic := ringCoords m inner
  let oc := ringCoords m outer
  match bboxOf (ic.map (fun c => c.x)), bboxOf (oc.map (fun c => c.x)),
        bboxOf (ic.map (fun c => c.y)), bboxOf (oc.map (fun c => c.y)) with
  | some (ixl, ixh), some (oxl, oxh), some (iyl, iyh), some (oyl, oyh) =>
    oxl < ixl ∧ ixh < oxh ∧ oyl < iyl ∧ iyh < oyh
  | _, _, _, _ => true

/-- `isleOutsideArea` findings: one per isle claimed by an area whose ring
does not lie strictly inside that area's outer ring. -/
def isleFindings (m : Map_info) : List Finding :=
  m.areas.foldr
    (fun a acc =>
      ((a.isles.filterMap (fun ii => m.isles.find? (fun i => i.id = ii))).filter
          (fun i => ¬ strictlyInside m i.ring a.ring)).map
        (fun i => Finding.isleOutsideArea a.id i.id) ++ acc)
    []

/-- A left/right area reference is valid when it is the universal/outer
sentinel `0` or names an existing area. -/
def validAreaRef (m : Map_info) (r : Int) : Bool :=
  r = 0 ∨ m.areas.any (fun a => (a.id : Int) = r)

/-- `danglingBoundary` findings: one per boundary line with an invalid
adjacent-area reference. -/
def danglingFindings (m : Map_info) : List Finding :=
  (m.lines.filter
      (fun l => l.ltype = LineType.boundary ∧
        ¬ (validAreaRef m l.left ∧ validAreaRef m l.right))).map
    (fun l => Finding.danglingBoundary l.id)

/-- The full consistency pass of the spec: open rings, isles outside their
area, dangling boundary references.  A reporting pass, never a repair. -/
def consistencyFindings (m : Map_info) : List Finding :=
  openRingFindings m ++ isleFindings m ++ danglingFindings m

/-- Count the model's lines of one feature type. -/
def countLines (m : Map_info) (t : LineType) : Nat :=
  (m.lines.filter (fun l => l.ltype = t)).length

/-- Modelled from the spec: `TopologySummary` — counts per line type, node
/ area / isle counts, the `topologyUnavailable` flag, and the consistency
section.  The section is an `Option`: `none` means omitted entirely, which
is distinct from present-but-empty results. -/
structure TopologySummary where
  topologyUnavailable : Bool
  pointCount : Nat
  lineCount : Nat
  boundaryCount : Nat
  centroidCount : Nat
  faceCount : Nat
  kernelCount : Nat
  nodeCount : Nat
  areaCount : Nat
  isleCount : Nat
  consistency : Option (List Finding)
deriving DecidableEq

/-- Modelled from the spec: `summarize(model) -> TopologySummary`.  At
LEVEL_1 the graph counts degrade to zero, the consistency section is
omitted entirely and `topologyUnavailable` is set; at LEVEL_2 the full
counts and the consistency pass are produced.  Total, never an error. -/
def summarize (m : Map_info) : TopologySummary :=
  match m.level with
  | SupportLevel.LEVEL_1 =>
    { topologyUnavailable := true
      pointCount := countLines m LineType.point
      lineCount := countLines m LineType.line
      boundaryCount := countLines m LineType.boundary
      centroidCount := countLines m LineType.centroid
      faceCount := countLines m LineType.face
      kernelCount := countLines m LineType.kernel
      nodeCount := 0
      areaCount := 0
      isleCount := 0
      consistency := none }
  | SupportLevel.LEVEL_2 =>
    { topologyUnavailable := false
      pointCount := countLines m LineType.point
      lineCount := countLines m LineType.line
      boundaryCount := countLines m LineType.boundary
      centroidCount := countLines m LineType.centroid
      faceCount := countLines m LineType.face
      kernelCount := countLines m LineType.kernel
      nodeCount := m.nodes.length
      areaCount := m.areas.length
      isleCount := m.isles.length
      consistency := some (consistencyFindings m) }

/-! ## ColumnReporter -/

/-- The error taxonomy of the spec, mapped to the documented exit codes. -/
inductive FacadeError where
  | mapNotFound
  | invalidFlags
  | noSuchLayer
  | noSuchTable
deriving DecidableEq

/-- Look a layer up by name. -/
def lookupLayer (m : Map_info) (l : String) : Option Layer :=
  m.layers.find? (fun ly => ly.name = l)

/-- Modelled from the spec: `listColumns(model, layer, table?)`.  Fails
with `NoSuchLayer` when the layer has no attribute binding, with
`NoSuchTable` when an explicit table name is given but absent; otherwise
yields the columns in the schema's declared order, never re-sorted. -/
def listColumns (m : Map_info) (l : String) (tbl : Option String) :
    Except FacadeError (List ColumnDescriptor) :=
  match lookupLayer m l with
  | none => Except.error FacadeError.noSuchLayer
  | some ly =>
    match tbl with
    | none => Except.ok ly.table.columns
    | some tn =>
      if ly.table.name = tn then Except.ok ly.table.columns
      else Except.error FacadeError.noSuchTable

/-! ## Report rendering -/

/-- One formatted report line: a label and the rendered value text. -/
structure ReportLine where
  label : String
  text : String
deriving DecidableEq

/-- Render one report line. -/
def renderLine (l : ReportLine) : String := l.label ++ "=" ++ l.text ++ "\n"

/-- Render a report: the concatenation of its rendered lines. -/
def renderReport (r : List ReportLine) : String :=
  r.foldr (fun l acc => renderLine l ++ acc) ""

/-- The double values shown by the region section, in output order. -/
def regionValues (m : Map_info) : List Rat :=
  let e := computeExtent m
  [e.maxY, e.minY, e.maxX, e.minX] ++
    (match e.zrange with
     | none => []
     | some (b, t) => [b, t])

/-- The region section: every numeric text is produced by the shared
`format_double` primitive; the Z lines are omitted when the Z range is
absent. -/
def regionReport (m : Map_info) : List ReportLine :=
  let e := computeExtent m
  [⟨"north", format_double e.maxY⟩, ⟨"south", format_double e.minY⟩,
   ⟨"east", format_double e.maxX⟩, ⟨"west", format_double e.minX⟩] ++
    (match e.zrange with
     | none => []
     | some (b, t) => [⟨"bottom", format_double b⟩, ⟨"top", format_double t⟩])

/-- Render one consistency finding as a report line. -/
def findingLine : Finding → ReportLine
  | Finding.openRing a => ⟨"openRing", natStr a⟩
  | Finding.isleOutsideArea a i => ⟨"isleOutsideArea", natStr a ++ "/" ++ natStr i⟩
  | Finding.danglingBoundary l => ⟨"danglingBoundary", natStr l⟩

/-- The topology section rendered from a summary; the consistency block is
omitted entirely when the summary carries no consistency section. -/
def topoReportOf (s : TopologySummary) : List ReportLine :=
  [⟨"topologyUnavailable", if s.topologyUnavailable then "true" else "false"⟩,
   ⟨"points", natStr s.pointCount⟩, ⟨"lines", natStr s.lineCount⟩,
   ⟨"boundaries", natStr s.boundaryCount⟩, ⟨"centroids", natStr s.centroidCount⟩,
   ⟨"faces", natStr s.faceCount⟩, ⟨"kernels", natStr s.kernelCount⟩,
   ⟨"nodes", natStr s.nodeCount⟩, ⟨"areas", natStr s.areaCount⟩,
   ⟨"isles", natStr s.isleCount⟩] ++
    (match s.consistency with
     | none => []
     | some fs => ⟨"findings", natStr fs.length⟩ :: fs.map findingLine)

/-- The topology section of a model. -/
def topoReport (m : Map_info) : List ReportLine :=
  topoReportOf (summarize m)

/-- Render one column descriptor as a report line. -/
def columnLine (c : ColumnDescriptor) : ReportLine :=
  ⟨c.name, c.typeTag ++ (if c.nullable then "" else " not null")⟩

/-- The columns section for one layer: the schema's columns in declared
order, empty when the layer is unresolved (the facade rejects that case
before rendering). -/
def columnsReportLayer (m : Map_info) (l : String) (tbl : Option String) :
    List ReportLine :=
  match listColumns m l tbl with
  | Except.error _ => []
  | Except.ok cols => cols.map columnLine

/-- The columns section: the named layer's columns, or every layer's
columns in layer-storage order when no layer is named. -/
def columnsReport (m : Map_info) (l : Option String) (tbl : Option String) :
    List ReportLine :=
  match l with
  | some l0 => columnsReportLayer m l0 tbl
  | none => m.layers.foldr (fun ly acc => ly.table.columns.map columnLine ++ acc) []

/-! ## The print functions of the header

The header declares all four printers on `const struct Map_info *`: they
hold a read-only view.  Each is modelled as returning the emitted text
together with the model it leaves behind, so that read-only-ness is a
theorem rather than an assumption. -/

/-- `print_region`: renders the region section. -/
def print_region (m : Map_info) : String × Map_info :=
  (renderReport (regionReport m), m)

/-- `print_topo`: renders the topology section. -/
def print_topo (m : Map_info) : String × Map_info :=
  (renderReport (topoReport m), m)

/-- `print_columns`: renders the columns section for the requested layer
and optional table. -/
def print_columns (m : Map_info) (l : Option String) (tbl : Option String) :
    String × Map_info :=
  (renderReport (columnsReport m l tbl), m)

/-- `print_info`: the full report — region, then topology, then columns,
in that fixed order, threading the model through the three sections. -/
def print_info (m : Map_info) : String × Map_info :=
  let r := print_region m
  let t := print_topo r.2
  let c := print_columns t.2 none none
  (r.1 ++ t.1 ++ c.1, c.2)

/-- Modelled from the spec: `level_one_info` — the reduced report of a map
without topology, equivalent to region plus columns only (spec §9 treats
this reading as a placeholder; the body is absent from the repository). -/
def level_one_info (m : Map_info) : String × Map_info :=
  let r := print_region m
  let c := print_columns r.2 none none
  (r.1 ++ c.1, c.2)

/-! ## InfoFacade -/

/-- A report-selection flag as given on the command line. -/
inductive Flag where
  | region
  | topology
  | columns
  | all
deriving DecidableEq

/-- The parsed flag set: a structure, hence without storage order. -/
structure Flags where
  region : Bool
  topology : Bool
  columns : Bool
  all : Bool
deriving DecidableEq

/-- The state before any flag was seen. -/
def noFlags : Flags := ⟨false, false, false, false⟩

/-- Record one flag in the parsed set. -/
def applyFlag (f : Flags) : Flag → Flags
  | Flag.region => { f with region := true }
  | Flag.topology => { f with topology := true }
  | Flag.columns => { f with columns := true }
  | Flag.all => { f with all := true }

/-- Modelled from the spec: `parse_args` — folds the given flags, in the
order given, into the parsed flag set. -/
def parse_args (args : List Flag) : Flags :=
  args.foldl applyFlag noFlags

/-- A report section identifier. -/
inductive Sect where
  | region
  | topology
  | columns
deriving DecidableEq

/-- Modelled from the spec: the sections selected by a parsed flag set —
all three, in the fixed order region / topology / columns, when `--all`
was given or no selection flag at all; otherwise exactly the requested
ones, still in that fixed order. -/
def selectedSections (f : Flags) : List Sect :=
  if f.all ∨ (f.region = false ∧ f.topology = false ∧ f.columns = false) then
    [Sect.region, Sect.topology, Sect.columns]
  else
    (if f.region then [Sect.region] else []) ++
      (if f.topology then [Sect.topology] else []) ++
        (if f.columns then [Sect.columns] else [])

/-- Render one selected section. -/
def renderSect (m : Map_info) (l : Option String) (tbl : Option String) :
    Sect → String
  | Sect.region => (print_region m).1
  | Sect.topology => (print_topo m).1
  | Sect.columns => (print_columns m l tbl).1

/-- True when a layer was named but has no attribute binding. -/
def layerMissing (m : Map_info) (l : Option String) : Bool :=
  match l with
  | none => false
  | some l0 => (lookupLayer m l0).isNone

/-- The documented exit code of a facade error. -/
def exitCode : Option FacadeError → Nat
  | none => 0
  | some FacadeError.mapNotFound => 1
  | some FacadeError.invalidFlags => 2
  | some FacadeError.noSuchLayer => 3
  | some FacadeError.noSuchTable => 3

/-- Modelled from the spec: the `InfoFacade` orchestration.  The flags are
parsed, the section list fixed, and the columns target validated before
any section is emitted: a columns request naming an unbound layer fails
with exit code 3 and produces no partial report output.  On success the
selected sections are emitted in the fixed order with exit code 0. -/
def run_facade (m : Map_info) (args : List Flag) (l : Option String)
    (tbl : Option String) : Nat × String :=
  let f := parse_args args
  let secs := selectedSections f
  if Sect.columns ∈ secs ∧ layerMissing m l then
    (exitCode (some FacadeError.noSuchLayer), "")
  else
    (exitCode none, (secs.map (renderSect m l tbl)).foldr (fun a b => a ++ b) "")

/-! ## Helper lemmas: decimal digits -/

lemma natDigitsAux_digits :
    ∀ fuel n, ∀ c ∈ natDigitsAux fuel n, ∃ d, d ≤ 9 ∧ c = digitChar d := by
  intro fuel
  induction fuel with
  | zero => intro n c hc; simp [natDigitsAux] at hc
  | succ f ih =>
    intro n c hc
    by_cases h : n < 10
    · simp [natDigitsAux, h] at hc
      exact ⟨n, by omega, hc⟩
    · simp only [natDigitsAux, if_neg h, List.mem_append, List.mem_singleton] at hc
      rcases hc with hc | hc
      · exact ih _ _ hc
      · exact ⟨n % 10, by omega, hc⟩

lemma natDigits_digits (n : Nat) : ∀ c ∈ natDigits n, ∃ d, d ≤ 9 ∧ c = digitChar d :=
  natDigitsAux_digits (n + 1) n

lemma digitChar_not_dot_comma {d : Nat} (hd : d ≤ 9) :
    digitChar d ≠ '.' ∧ digitChar d ≠ ',' := by
  interval_cases d <;> exact ⟨by decide, by decide⟩

lemma natDigitsAux_length :
    ∀ fuel n k, n < fuel → 1 ≤ k → n < 10 ^ k → (natDigitsAux fuel n).length ≤ k := by
  intro fuel
  induction fuel with
  | zero => intro n k h; omega
  | succ f ih =>
    intro n k hnf hk hnk
    by_cases h : n < 10
    · simp [natDigitsAux, h]; omega
    · have hk2 : 2 ≤ k := by
        by_contra hcon
        have hk1 : k = 1 := by omega
        rw [hk1, pow_one] at hnk
        omega
      have hdiv : n / 10 < 10 ^ (k - 1) := by
        have h10 : (0 : Nat) < 10 := by norm_num
        rw [Nat.div_lt_iff_lt_mul h10]
        have : 10 ^ (k - 1) * 10 = 10 ^ k := by
          rw [← pow_succ]
          congr 1
          omega
        omega
      have hf : n / 10 < f := by
        have h1 : n / 10 < n := Nat.div_lt_self (by omega) (by norm_num)
        omega
      have := ih (n / 10) (k - 1) hf (by omega) hdiv
      simp only [natDigitsAux, if_neg h, List.length_append, List.length_singleton]
      omega

lemma natDigits_length_le {n : Nat} (h : n < 1000000) : (natDigits n).length ≤ 6 :=
  natDigitsAux_length (n + 1) n 6 (Nat.lt_succ_self n) (by norm_num) (by norm_num; omega)

/-! ## Helper lemmas: the shared formatting primitive -/

lemma takeWhile_all_then_stop (p : Char → Bool) :
    ∀ (l1 : List Char) (a : Char) (l2 : List Char),
      (∀ x ∈ l1, p x = true) → p a = false →
      List.takeWhile p (l1 ++ a :: l2) = l1 := by
  intro l1
  induction l1 with
  | nil => intro a l2 _ hpa; simp [List.takeWhile_cons, hpa]
  | cons x xs ih =>
    intro a l2 hall hpa
    have hx : p x = true := hall x (List.mem_cons_self x xs)
    simp only [List.cons_append, List.takeWhile_cons, hx, if_true]
    rw [ih a l2 (fun y hy => hall y (List.mem_cons_of_mem x hy)) hpa]

/-- The character list behind `format_double q`, named for reuse. -/
lemma format_double_data (q : Rat) :
    (format_double q).data =
      (if q.num < 0 then ['-'] else []) ++
        natDigits (q.num.natAbs * 1000000 / q.den / 1000000) ++
          '.' :: (List.replicate
              (6 - (natDigits (q.num.natAbs * 1000000 / q.den % 1000000)).length) '0' ++
            natDigits (q.num.natAbs * 1000000 / q.den % 1000000)) := rfl

lemma frac_digits_length (q : Rat) :
    (List.replicate
        (6 - (natDigits (q.num.natAbs * 1000000 / q.den % 1000000)).length) '0' ++
      natDigits (q.num.natAbs * 1000000 / q.den % 1000000)).length = 6 := by
  have hlt : q.num.natAbs * 1000000 / q.den % 1000000 < 1000000 :=
    Nat.mod_lt _ (by norm_num)
  have hle := natDigits_length_le hlt
  simp only [List.length_append, List.length_replicate]
  omega

lemma frac_digits_no_dot (q : Rat) :
    ∀ x ∈ List.replicate
        (6 - (natDigits (q.num.natAbs * 1000000 / q.den % 1000000)).length) '0' ++
      natDigits (q.num.natAbs * 1000000 / q.den % 1000000), x ≠ '.' := by
  intro x hx
  rcases List.mem_append.mp hx with h | h
  · rw [List.eq_of_mem_replicate h]; decide
  · obtain ⟨d, hd, rfl⟩ := natDigits_digits _ x h
    exact (digitChar_not_dot_comma hd).1

/-- Taking up to the first dot from the reversed render of a number whose
trailing block is dot-free recovers exactly that trailing block. -/
lemma takeWhile_reverse_render (A B frac : List Char)
    (hall : ∀ x ∈ frac, x ≠ '.') :
    (List.takeWhile (fun c => decide (c ≠ '.'))
      ((A ++ B ++ '.' :: frac).reverse)).length = frac.length := by
  have hshape : (A ++ B ++ '.' :: frac).reverse =
      frac.reverse ++ '.' :: (B.reverse ++ A.reverse) := by
    simp [List.reverse_append, List.reverse_cons, List.append_assoc]
  rw [hshape, takeWhile_all_then_stop _ frac.reverse '.' (B.reverse ++ A.reverse)
      ?all ?stop]
  · exact List.length_reverse frac
  case all =>
    intro x hx
    have hxf : x ∈ frac := List.mem_reverse.mp hx
    simp [hall x hxf]
  case stop => decide

/-- The realised precision of `format_double` is exactly six decimals. -/
lemma fracPartLen_format_double (q : Rat) : fracPartLen (format_double q) = 6 := by
  rw [fracPartLen, format_double_data]
  exact (takeWhile_reverse_render
      (if q.num < 0 then ['-'] else [])
      (natDigits (q.num.natAbs * 1000000 / q.den / 1000000))
      (List.replicate
          (6 - (natDigits (q.num.natAbs * 1000000 / q.den % 1000000)).length) '0' ++
        natDigits (q.num.natAbs * 1000000 / q.den % 1000000))
      (frac_digits_no_dot q)).trans (frac_digits_length q)

/-- `format_double` never emits a locale separator. -/
lemma format_double_no_comma (q : Rat) : ',' ∉ (format_double q).data := by
  rw [format_double_data]
  intro hmem
  rcases List.mem_append.mp hmem with h | h
  · rcases List.mem_append.mp h with h1 | h1
    · by_cases hs : q.num < 0
      · rw [if_pos hs] at h1
        simp at h1
      · rw [if_neg hs] at h1
        simp at h1
    · obtain ⟨d, hd, hcd⟩ := natDigits_digits _ ',' h1
      exact (digitChar_not_dot_comma hd).2 hcd.symm
  · rcases List.mem_cons.mp h with h1 | h1
    · exact absurd h1.symm (by decide)
    · rcases List.mem_append.mp h1 with h2 | h2
      · have := List.eq_of_mem_replicate h2
        exact absurd this (by decide)
      · obtain ⟨d, hd, hcd⟩ := natDigits_digits _ ',' h2
        exact (digitChar_not_dot_comma hd).2 hcd.symm

/-! ## Helper lemmas: extent -/

lemma foldl_min_le_foldl_max (f : Coord → Rat) :
    ∀ (cs : List Coord) (a b : Rat), a ≤ b →
      cs.foldl (fun x p => min x (f p)) a ≤ cs.foldl (fun x p => max x (f p)) b := by
  intro cs
  induction cs with
  | nil => intro a b h; simpa using h
  | cons c cs ih =>
    intro a b h
    simp only [List.foldl_cons]
    exact ih _ _ (le_trans (min_le_left a (f c)) (le_trans h (le_max_left b (f c))))

lemma foldMin_le_foldMax (f : Coord → Rat) (a : Rat) (cs : List Coord) :
    foldMin f a cs ≤ foldMax f a cs :=
  foldl_min_le_foldl_max f cs a a (le_refl a)

lemma foldl_min_le_foldl_max_rat :
    ∀ (zs : List Rat) (a b : Rat), a ≤ b →
      zs.foldl (fun x p => min x p) a ≤ zs.foldl (fun x p => max x p) b := by
  intro zs
  induction zs with
  | nil => intro a b h; simpa using h
  | cons z zs ih =>
    intro a b h
    simp only [List.foldl_cons]
    exact ih _ _ (le_trans (min_le_left a z) (le_trans h (le_max_left b z)))

lemma zfold_le {l : List Rat} {lo hi : Rat} (h : zfold l = some (lo, hi)) : lo ≤ hi := by
  cases l with
  | nil => simp [zfold] at h
  | cons z zs =>
    simp only [zfold, Option.some_inj, Prod.mk.injEq] at h
    rw [← h.1, ← h.2]
    exact foldl_min_le_foldl_max_rat zs z z (le_refl z)

lemma zfold_eq_none {l : List Rat} : zfold l = none ↔ l = [] := by
  cases l <;> simp [zfold]

lemma allCoords_of_nil_lines {m : Map_info} (h : m.lines = []) : allCoords m = [] := by
  rw [allCoords, h]
  rfl

/-! ## Helper lemmas: the read-only print functions -/

lemma print_region_snd (m : Map_info) : (print_region m).2 = m := rfl

lemma print_topo_snd (m : Map_info) : (print_topo m).2 = m := rfl

lemma print_columns_snd (m : Map_info) (l tbl : Option String) :
    (print_columns m l tbl).2 = m := rfl

lemma print_info_snd (m : Map_info) : (print_info m).2 = m := rfl

/-! ## Helper lemmas: consistency findings -/

lemma mem_foldr_append {α β : Type} (g : α → List β) :
    ∀ (l : List α) (c : β), c ∈ l.foldr (fun a acc => g a ++ acc) [] →
      ∃ a, a ∈ l ∧ c ∈ g a := by
  intro l
  induction l with
  | nil => intro c hc; simp at hc
  | cons x xs ih =>
    intro c hc
    simp only [List.foldr_cons, List.mem_append] at hc
    rcases hc with hc | hc
    · exact ⟨x, List.mem_cons_self x xs, hc⟩
    · obtain ⟨a, ha, hga⟩ := ih c hc
      exact ⟨a, List.mem_cons_of_mem x ha, hga⟩

lemma isleFindings_shape {m : Map_info} {c : Finding} (h : c ∈ isleFindings m) :
    ∃ a i, c = Finding.isleOutsideArea a i := by
  obtain ⟨a, _, hc⟩ := mem_foldr_append _ m.areas c h
  obtain ⟨i, _, hci⟩ := List.mem_map.mp hc
  exact ⟨a.id, i.id, hci.symm⟩

lemma danglingFindings_shape {m : Map_info} {c : Finding} (h : c ∈ danglingFindings m) :
    ∃ i, c = Finding.danglingBoundary i := by
  obtain ⟨l, _, hcl⟩ := List.mem_map.mp h
  exact ⟨l.id, hcl.symm⟩

lemma openRing_mem_consistency {m : Map_info} {a : Area}
    (ha : a ∈ m.areas) (hopen : ringClosed m a.ring = false) :
    Finding.openRing a.id ∈ consistencyFindings m := by
  rw [consistencyFindings]
  apply List.mem_append_left
  apply List.mem_append_left
  rw [openRingFindings]
  exact List.mem_map.mpr ⟨a, List.mem_filter.mpr ⟨ha, by simp [hopen]⟩, rfl⟩

lemma openRing_not_mem_consistency {m : Map_info}
    (hall : ∀ b ∈ m.areas, ringClosed m b.ring = true) (i : Nat) :
    Finding.openRing i ∉ consistencyFindings m := by
  rw [consistencyFindings]
  intro hmem
  rcases List.mem_append.mp hmem with h | h
  · rcases List.mem_append.mp h with h1 | h1
    · rw [openRingFindings] at h1
      obtain ⟨a, haf, _⟩ := List.mem_map.mp h1
      have hmem2 := (List.mem_filter.mp haf).2
      have hclosed := hall a (List.mem_filter.mp haf).1
      simp [hclosed] at hmem2
    · obtain ⟨a, j, hshape⟩ := isleFindings_shape h1
      simp at hshape
  · obtain ⟨j, hshape⟩ := danglingFindings_shape h
    simp at hshape

/-! ## Helper lemmas: ordering of `forEachLine` -/

instance : IsTotal Line (fun a b => a.id ≤ b.id) :=
  ⟨fun a b => Nat.le_total a.id b.id⟩

instance : IsTrans Line (fun a b => a.id ≤ b.id) :=
  ⟨fun _ _ _ h1 h2 => Nat.le_trans h1 h2⟩

/-! ## Helper lemmas: flag parsing -/

lemma applyFlag_comm (z : Flags) (a b : Flag) :
    applyFlag (applyFlag z a) b = applyFlag (applyFlag z b) a := by
  cases z
  cases a <;> cases b <;> rfl

lemma parse_args_perm {args args2 : List Flag} (h : args.Perm args2) :
    parse_args args = parse_args args2 :=
  h.foldl_eq' (fun x _ y _ z => applyFlag_comm z x y) noFlags

lemma selectedSections_default {f : Flags}
    (h : f = noFlags ∨ f.all = true) :
    selectedSections f = [Sect.region, Sect.topology, Sect.columns] := by
  rcases h with h | h
  · rw [h]
    rfl
  · rw [selectedSections, if_pos (Or.inl h)]

/-! ## Concrete example models -/

/-- A map opened at LEVEL_1 only. -/
def mapL1 : Map_info := ⟨SupportLevel.LEVEL_1, [], [], [], [], []⟩

/-- A plain line feature with two vertices. -/
def exLine : Line := ⟨1, LineType.line, [⟨0, 0, none⟩, ⟨2, 3, none⟩], 0, 0⟩

/-- A LEVEL_2 map with one plain line and no attribute layer. -/
def mapPlain : Map_info := ⟨SupportLevel.LEVEL_2, [], [exLine], [], [], []⟩

/-- A LEVEL_2 map with no geometry at all. -/
def mapEmpty : Map_info := ⟨SupportLevel.LEVEL_2, [], [], [], [], []⟩

/-- A LEVEL_2 map whose only feature is a boundary with a dangling
left-area reference (area 5 does not exist) and no areas at all. -/
def mapDangling : Map_info :=
  ⟨SupportLevel.LEVEL_2, [],
   [⟨1, LineType.boundary, [⟨0, 0, none⟩, ⟨1, 0, none⟩], 5, 0⟩], [], [], []⟩

/-- An area whose outer ring is the single boundary 1, traversed forward. -/
def openArea : Area := ⟨7, [1], [], none⟩

/-- A LEVEL_2 map with one area whose outer ring does not close: boundary 1
runs from (0,0) to (1,0) and nothing returns to the start. -/
def mapOpen : Map_info :=
  ⟨SupportLevel.LEVEL_2, [],
   [⟨1, LineType.boundary, [⟨0, 0, none⟩, ⟨1, 0, none⟩], 0, 0⟩],
   [openArea], [], []⟩

/-- Columns of the concrete schema scenario, in declared order. -/
def colId : ColumnDescriptor := ⟨"id", "integer", false⟩

/-- Second declared column. -/
def colName : ColumnDescriptor := ⟨"name", "text", true⟩

/-- Third declared column. -/
def colElev : ColumnDescriptor := ⟨"elev", "double", true⟩

/-- A LEVEL_2 map with one layer `lay` bound to a table declared with
columns `(id, name, elev)` in that order. -/
def mapCols : Map_info :=
  ⟨SupportLevel.LEVEL_2, [], [], [], [],
   [⟨"lay", ⟨"t1", [colId, colName, colElev]⟩⟩]⟩

/-- A non-integral rational used to exercise the formatter. -/
def ratPrec : Rat := ⟨314159, 100000, by decide, by decide⟩

/-! ## Claims -/

/-- C1: for every model whose support level is LEVEL_1, `summarize`
returns a summary with `topologyUnavailable = true` and the consistency
section omitted entirely (`none`, not present-with-empty-results); being
a total function it never raises an error. -/
theorem claim_C1_level1_summarize (m : Map_info)
    (h : m.level = SupportLevel.LEVEL_1) :
    (summarize m).topologyUnavailable = true ∧ (summarize m).consistency = none := by
  rw [summarize, h]
  exact ⟨rfl, rfl⟩

theorem claim_C1_witness :
    (summarize mapL1).topologyUnavailable = true ∧
      (summarize mapL1).consistency = none :=
  claim_C1_level1_summarize mapL1 rfl

/-- C2: `computeExtent` returns min ≤ max on every present axis for a
model with at least one line; a model with zero lines yields a degenerate
extent flagged `empty`; and the Z range is present exactly when some
coordinate carries a Z value — otherwise the Z fields are absent, not
zero. -/
theorem claim_C2_computeExtent (m : Map_info) :
    (m.lines ≠ [] →
      (computeExtent m).minX ≤ (computeExtent m).maxX ∧
        (computeExtent m).minY ≤ (computeExtent m).maxY ∧
          ∀ zb zt, (computeExtent m).zrange = some (zb, zt) → zb ≤ zt) ∧
    (m.lines = [] → (computeExtent m).empty = true) ∧
    ((computeExtent m).zrange = none ↔ ∀ c ∈ allCoords m, c.z = none) := by
  rcases hac : allCoords m with _ | ⟨c, cs⟩
  · refine ⟨fun _ => ?_, fun _ => ?_, ?_⟩
    · rw [computeExtent, hac]
      exact ⟨le_refl 0, le_refl 0, fun zb zt h => by simp at h⟩
    · rw [computeExtent, hac]
    · rw [computeExtent, hac]
      simp
  · refine ⟨fun _ => ?_, fun hl => ?_, ?_⟩
    · rw [computeExtent, hac]
      refine ⟨foldMin_le_foldMax _ _ _, foldMin_le_foldMax _ _ _, ?_⟩
      intro zb zt h
      exact zfold_le h
    · exfalso
      rw [allCoords_of_nil_lines hl] at hac
      simp at hac
    · rw [computeExtent, hac]
      show zfold (zvals (c :: cs)) = none ↔ _
      simp only [zfold_eq_none, zvals, List.filterMap_eq_nil_iff]

theorem claim_C2_witness :
    ((computeExtent mapPlain).minX ≤ (computeExtent mapPlain).maxX ∧
      (computeExtent mapPlain).minY ≤ (computeExtent mapPlain).maxY) ∧
      (computeExtent mapEmpty).empty = true :=
  ⟨⟨((claim_C2_computeExtent mapPlain).1 (by decide)).1,
    ((claim_C2_computeExtent mapPlain).1 (by decide)).2.1⟩,
   (claim_C2_computeExtent mapEmpty).2.1 rfl⟩

/-- C3 counterexample: the claim "for every model in which all area rings
close, the consistency list is empty" is false on the code: `mapDangling`
has no areas (so every area ring closes vacuously), yet its consistency
list carries a `danglingBoundary` finding, because the consistency pass
also checks isle containment and boundary adjacency, not only ring
closure. -/
theorem claim_C3_counterexample :
    mapDangling.areas = [] ∧ (summarize mapDangling).consistency ≠ some [] := by
  constructor
  · rfl
  · decide

/-- C3 (amended): for every LEVEL_2 model, the consistency section is
present, an area with a non-closing outer ring contributes an `openRing`
finding with its identifier, and when every area ring closes the
consistency list contains no `openRing` finding (it may still carry isle
or boundary findings). -/
theorem claim_C3_openRing_amended (m : Map_info) (a : Area)
    (hl : m.level = SupportLevel.LEVEL_2) :
    (summarize m).consistency = some (consistencyFindings m) ∧
    (a ∈ m.areas → ringClosed m a.ring = false →
      Finding.openRing a.id ∈ consistencyFindings m) ∧
    ((∀ b ∈ m.areas, ringClosed m b.ring = true) →
      ∀ i, Finding.openRing i ∉ consistencyFindings m) := by
  refine ⟨?_, ?_, ?_⟩
  · rw [summarize, hl]
  · intro ha hopen
    exact openRing_mem_consistency ha hopen
  · intro hall i
    exact openRing_not_mem_consistency hall i

theorem claim_C3_witness :
    Finding.openRing 7 ∈ consistencyFindings mapOpen ∧
      (summarize mapOpen).consistency = some (consistencyFindings mapOpen) :=
  ⟨(claim_C3_openRing_amended mapOpen openArea rfl).2.1 (by decide) (by decide),
   (claim_C3_openRing_amended mapOpen openArea rfl).1⟩

/-- C4: calling any reporter twice on the same unmodified model yields
byte-identical formatted output — the second call runs on the model the
first call left behind and emits the same text. -/
theorem claim_C4_idempotent (m : Map_info) (l tbl : Option String) :
    (print_region (print_region m).2).1 = (print_region m).1 ∧
    (print_topo (print_topo m).2).1 = (print_topo m).1 ∧
    (print_columns (print_columns m l tbl).2 l tbl).1 = (print_columns m l tbl).1 ∧
    (print_info (print_info m).2).1 = (print_info m).1 := by
  rw [print_region_snd, print_topo_snd, print_columns_snd, print_info_snd]
  exact ⟨rfl, rfl, rfl, rfl⟩

/-- C5: with no report-selection flags, or with `--all`, the facade emits
the region, topology and columns sections in exactly that fixed order, and
the emitted report is invariant under any permutation of the given flags. -/
theorem claim_C5_fixed_order (m : Map_info) (args args2 : List Flag)
    (l tbl : Option String)
    (hsel : parse_args args = noFlags ∨ (parse_args args).all = true)
    (hlay : layerMissing m l = false) :
    (run_facade m args l tbl).2 =
      (print_region m).1 ++ (print_topo m).1 ++ (print_columns m l tbl).1 ∧
    (args.Perm args2 → run_facade m args l tbl = run_facade m args2 l tbl) := by
  constructor
  · have hsecs := selectedSections_default hsel
    simp [run_facade, hsecs, hlay, renderSect, String.append_empty,
      String.append_assoc]
  · intro hperm
    unfold run_facade
    rw [parse_args_perm hperm]

theorem claim_C5_witness :
    (run_facade mapPlain [Flag.all] none none).2 =
      (print_region mapPlain).1 ++ (print_topo mapPlain).1 ++
        (print_columns mapPlain none none).1 :=
  (claim_C5_fixed_order mapPlain [Flag.all] [Flag.all] none none
    (Or.inr rfl) rfl).1

/-- C6: `listColumns` yields the columns of the bound table in exactly the
schema's declared order (never re-sorted), and the rendered columns
section lists the column names in that same order. -/
theorem claim_C6_column_order (m : Map_info) (l : String) (ly : Layer)
    (h : lookupLayer m l = some ly) :
    listColumns m l none = Except.ok ly.table.columns ∧
    (columnsReportLayer m l none).map (fun r => r.label) =
      ly.table.columns.map (fun c => c.name) := by
  have h1 : listColumns m l none = Except.ok ly.table.columns := by
    rw [listColumns, h]
  refine ⟨h1, ?_⟩
  simp only [columnsReportLayer, h1]
  simp [columnLine, List.map_map, Function.comp]

theorem claim_C6_witness :
    listColumns mapCols "lay" none = Except.ok [colId, colName, colElev] ∧
      (columnsReportLayer mapCols "lay" none).map (fun r => r.label) =
        ["id", "name", "elev"] :=
  have h := claim_C6_column_order mapCols "lay"
    ⟨"lay", ⟨"t1", [colId, colName, colElev]⟩⟩ (by decide)
  ⟨h.1, h.2.trans (by decide)⟩

/-- C7: a columns request naming a layer with no attribute binding fails
with NoSuchLayer and exit code 3, and produces no partial report output:
no section text is emitted before the failure. -/
theorem claim_C7_no_such_layer (m : Map_info) (args : List Flag) (l : String)
    (tbl : Option String)
    (hc : Sect.columns ∈ selectedSections (parse_args args))
    (h : lookupLayer m l = none) :
    run_facade m args (some l) tbl = (3, "") := by
  have hlm : layerMissing m (some l) = true := by
    rw [layerMissing, h]
    rfl
  simp only [run_facade]
  rw [if_pos ⟨hc, hlm⟩]
  rfl

theorem claim_C7_witness :
    run_facade mapCols [Flag.columns] (some "does_not_exist") none = (3, "") :=
  claim_C7_no_such_layer mapCols [Flag.columns] "does_not_exist" none
    (by decide) (by decide)

/-- C8: `forEachLine` yields a finite list of the model's lines in
ascending identifier order — a permutation of the stored lines, sorted by
identifier; being a pure function of the model, repeated calls yield the
same stable sequence. -/
theorem claim_C8_forEachLine (m : Map_info) :
    List.Sorted (fun a b => a.id ≤ b.id) (forEachLine m) ∧
      (forEachLine m).Perm m.lines :=
  ⟨List.sorted_insertionSort _ _, List.perm_insertionSort _ _⟩

/-- C9: every reporting operation leaves the model unchanged — each
reporter returns exactly the model it was given, matching the `const`
qualification of every printer in the header. -/
theorem claim_C9_read_only (m : Map_info) (l tbl : Option String) :
    (print_region m).2 = m ∧ (print_topo m).2 = m ∧
      (print_columns m l tbl).2 = m ∧ (print_info m).2 = m ∧
        (level_one_info m).2 = m :=
  ⟨print_region_snd m, print_topo_snd m, print_columns_snd m l tbl,
   print_info_snd m, rfl⟩

/-- C10: all numeric output of the region section is produced by the
single shared `format_double` primitive, the full-info and level-one
reports embed the very same region bytes (identical rendering across
sections), and `format_double` itself realises a fixed precision of six
decimals with no locale-dependent separator. -/
theorem claim_C10_shared_format (m : Map_info) (q : Rat) :
    (∀ r ∈ regionReport m, ∃ v, v ∈ regionValues m ∧ r.text = format_double v) ∧
    fracPartLen (format_double q) = 6 ∧
    ',' ∉ (format_double q).data ∧
    (level_one_info m).1.data.take (print_region m).1.data.length =
      (print_region m).1.data ∧
    (print_info m).1.data.take (print_region m).1.data.length =
      (print_region m).1.data := by
  refine ⟨?_, fracPartLen_format_double q, format_double_no_comma q, ?_, ?_⟩
  · intro r hr
    rcases hz : (computeExtent m).zrange with _ | ⟨zb, zt⟩
    · simp only [regionReport, hz, List.append_nil, List.mem_cons,
        List.not_mem_nil, or_false] at hr
      rcases hr with rfl | rfl | rfl | rfl
      · exact ⟨(computeExtent m).maxY, by simp [regionValues], rfl⟩
      · exact ⟨(computeExtent m).minY, by simp [regionValues], rfl⟩
      · exact ⟨(computeExtent m).maxX, by simp [regionValues], rfl⟩
      · exact ⟨(computeExtent m).minX, by simp [regionValues], rfl⟩
    · simp only [regionReport, hz, List.mem_append, List.mem_cons,
        List.not_mem_nil, or_false] at hr
      rcases hr with (rfl | rfl | rfl | rfl) | (rfl | rfl)
      · exact ⟨(computeExtent m).maxY, by simp [regionValues], rfl⟩
      · exact ⟨(computeExtent m).minY, by simp [regionValues], rfl⟩
      · exact ⟨(computeExtent m).maxX, by simp [regionValues], rfl⟩
      · exact ⟨(computeExtent m).minX, by simp [regionValues], rfl⟩
      · exact ⟨zb, by simp [regionValues, hz], rfl⟩
      · exact ⟨zt, by simp [regionValues, hz], rfl⟩
  · show ((print_region m).1.data ++ (print_columns m none none).1.data).take
        (print_region m).1.data.length = (print_region m).1.data
    exact List.take_left _ _
  · show (((print_region m).1.data ++ (print_topo m).1.data) ++
        (print_columns m none none).1.data).take
        (print_region m).1.data.length = (print_region m).1.data
    rw [List.append_assoc]
    exact List.take_left _ _

theorem claim_C10_witness :
    fracPartLen (format_double ratPrec) = 6 ∧
      ',' ∉ (format_double ratPrec).data ∧
      ∃ v, v ∈ regionValues mapPlain ∧
        (ReportLine.mk "north" (format_double 3)).text = format_double v :=
  ⟨(claim_C10_shared_format mapPlain ratPrec).2.1,
   (claim_C10_shared_format mapPlain ratPrec).2.2.1,
   (claim_C10_shared_format mapPlain ratPrec).1 ⟨"north", format_double 3⟩
     (by decide)⟩

end VInfo
